import Mathlib

/-!
Verification of the seobrain indexing core against its specification.

The definitions below are a shallow embedding of the Python sources:

* `indexer.py` — the `KnowledgeBaseHandler` debounce state machine and the
  1-second polling loop of `main`.
* `search.py` — `extract_yaml_front_matter`, `load_documents`,
  `create_or_load_index` (its persistence behaviour is embedded as a trace
  of storage operations, and its Python calling convention as an arity
  check, because one caller passes it four arguments).
* `crosslinker.py` — `Article`, `detect_existing_links`,
  `find_related_articles`, `update_articles_with_links`.
* The text splitter (`RecursiveCharacterTextSplitter`) is an external
  library collaborator with no source in this repository; a splitter is
  modelled from the spec for the chunking laws.

External collaborators (the YAML parser, the vector store's similarity
search, the regular-expression engine) are passed in as function
parameters; machine state the Python reads (directory existence, file
read outcomes, index-load success) is passed in as explicit data.
Strings are embedded as `String` for paths and `List Char` for file
contents, so every definition is executable.
-/

namespace Seobrain

/-! ## Debounce state machine (`indexer.py`, `KnowledgeBaseHandler`)

Python state: `self.last_event_time` (initially `0`) and
`self.pending_index` (initially `False`).  Time is embedded as `Nat`
seconds.  The watcher's `main` loop calls `check_if_should_index` once a
second (`time.sleep(1)`); a file event at time `t` calls
`_schedule_indexing`, i.e. sets `last_event_time := t`,
`pending_index := true`.  The unconditional `run_indexing()` executed once
at watcher startup (before the loop) is outside the debounce mechanism and
is not part of this model. -/

structure DebounceState where
  last_event_time : Nat
  pending_index : Bool
deriving DecidableEq

/-- `KnowledgeBaseHandler._schedule_indexing`, at current time `now`. -/
def scheduleIndexing (now : Nat) (_s : DebounceState) : DebounceState :=
  { last_event_time := now, pending_index := true }

/-- `KnowledgeBaseHandler.check_if_should_index`, at current time `now`:
returns whether indexing fires, and the successor state.  Mirrors
`time_since_last_event >= self.cooldown` with truncated `Nat`
subtraction (the Python clock never runs backwards). -/
def checkIfShouldIndex (now cooldown : Nat) (s : DebounceState) :
    Bool × DebounceState :=
  if s.pending_index = false then (false, s)
  else if cooldown ≤ now - s.last_event_time then
    (true, { last_event_time := s.last_event_time, pending_index := false })
  else (false, s)

/-- Run the watcher loop over the given (chronological) list of clock
times: in each second `t`, file events carrying timestamp `t` (if `t`
is an event time) are delivered first, then the main loop's periodic
check runs.  Collects the times at which the periodic check triggered a
rebuild, together with the final state. -/
def debounceRun (eventTimes : List Nat) (cooldown : Nat)
    (s : DebounceState) : List Nat → List Nat × DebounceState
  | [] => ([], s)
  | t :: ts =>
    let s1 := if t ∈ eventTimes then scheduleIndexing t s else s
    let fs := checkIfShouldIndex t cooldown s1
    let rest := debounceRun eventTimes cooldown fs.2 ts
    (if fs.1 then t :: rest.1 else rest.1, rest.2)

/-- All rebuild-trigger times when the watcher runs from its initial
state (`last_event_time = 0`, `pending_index = False`) over clock times
`0, 1, …, horizon`, with file events at `eventTimes`. -/
def rebuildTimes (eventTimes : List Nat) (cooldown horizon : Nat) :
    List Nat :=
  (debounceRun eventTimes cooldown
    { last_event_time := 0, pending_index := false }
    (List.range' 0 (horizon + 1))).1

/-- A burst of events: strictly increasing timestamps, each within
`cooldown` seconds of the previous one. -/
def burst (cooldown : Nat) (es : List Nat) : Prop :=
  List.Chain' (fun a b => a < b ∧ b ≤ a + cooldown) es

/-! ## Document loading (`search.py`)

`extract_yaml_front_matter` scans for a leading `---` fence and the next
`---`, strips the text between them and hands it to `yaml.safe_load`.
The YAML library is an external collaborator, embedded as a parameter
`parseYaml`; `none` stands for the Python function's `{}` result (no
front matter, no closing fence, or a parse exception), in which case
`front_matter.get('tags', [])` yields `[]`. -/

structure FrontMatter where
  tags : List String
  published : Bool
deriving DecidableEq

/-- Index of the first occurrence of `---` in a character list, offset
by `i`; embeds `content.find('---', 3)` when applied to `content.drop 3`
with `i = 3`. -/
def findDashes : List Char → Nat → Option Nat
  | '-' :: '-' :: '-' :: _, i => some i
  | _ :: cs, i => findDashes cs (i + 1)
  | [], _ => none

/-- Python whitespace for `str.strip()`. -/
def pyWS (c : Char) : Bool :=
  c = ' ' || c = '\t' || c = '\n' || c = '\r'

/-- Python `str.strip()`. -/
def pyStrip (s : List Char) : List Char :=
  ((s.dropWhile pyWS).reverse.dropWhile pyWS).reverse

/-- Whether `pat` occurs at the start of `c`. -/
def startsWithSub : List Char → List Char → Bool
  | _, [] => true
  | [], _ :: _ => false
  | a :: as, b :: bs => a = b && startsWithSub as bs

/-- Python substring containment `pat in c`. -/
def containsSub : List Char → List Char → Bool
  | [], pat => pat.isEmpty
  | c :: rest, pat => startsWithSub (c :: rest) pat || containsSub rest pat

/-- Python `s.endswith(suffix)`. -/
def listEndsWith (s suffix : List Char) : Bool :=
  startsWithSub s.reverse suffix.reverse

/-- `search.extract_yaml_front_matter`.  `parseYaml` is `yaml.safe_load`;
a `none` result stands for the empty dictionary the Python returns when
there is no front-matter block or parsing raises. -/
def extract_yaml_front_matter (parseYaml : List Char → Option FrontMatter)
    (content : List Char) : Option FrontMatter :=
  match content with
  | '-' :: '-' :: '-' :: rest =>
    match findDashes rest 3 with
    | some endIndex =>
      parseYaml (pyStrip ((content.drop 3).take (endIndex - 3)))
    | none => none
  | _ => none

/-- `front_matter.get('tags', [])`. -/
def fmTags : Option FrontMatter → List String
  | some fm => fm.tags
  | none => []

/-- Outcome of `open(file_path).read()` for one file. -/
inductive ReadResult where
  | ok (content : List Char)
  | err (msg : String)
deriving DecidableEq

/-- A file found by the recursive glob, with its read outcome. -/
structure SrcFile where
  path : String
  read : ReadResult
deriving DecidableEq

/-- A loaded document (`langchain` `Document`): page content plus the
source-path metadata. -/
structure Document where
  source : String
  page_content : List Char
deriving DecidableEq

/-- `file_path.endswith(('.md', '.markdown'))`. -/
def hasMdExt (path : String) : Bool :=
  listEndsWith path.data ".md".data || listEndsWith path.data ".markdown".data

/-- The document built for a successfully read file. -/
def mkDoc (f : SrcFile) (content : List Char) : Document :=
  { source := f.path, page_content := content }

/-- Result of `search.load_documents`: whether the missing directory was
created, the documents returned, and the paths whose per-file `except`
branch recorded an error. -/
structure ScanResult where
  created_dir : Bool
  documents : List Document
  errors : List String
deriving DecidableEq

/-- The per-file loop body of `load_documents`, over the globbed file
list: a read failure records an error and continues; with a non-empty
tag filter a markdown file is kept only when some filter tag occurs in
its front-matter tag list; other files are always kept. -/
def scanFiles (parseYaml : List Char → Option FrontMatter)
    (tags : List String) : List SrcFile → List Document × List String
  | [] => ([], [])
  | f :: fs =>
    let rest := scanFiles parseYaml tags fs
    match f.read with
    | ReadResult.err _ => (rest.1, f.path :: rest.2)
    | ReadResult.ok content =>
      if tags.isEmpty = false ∧ hasMdExt f.path then
        if tags.any (fun t =>
            (fmTags (extract_yaml_front_matter parseYaml content)).contains t) then
          (mkDoc f content :: rest.1, rest.2)
        else rest
      else (mkDoc f content :: rest.1, rest.2)

/-- `search.load_documents`: a missing directory is created and yields an
empty document list; otherwise every globbed file is processed by the
per-file loop. -/
def load_documents (parseYaml : List Char → Option FrontMatter)
    (dirExists : Bool) (files : List SrcFile) (tags : List String) :
    ScanResult :=
  if dirExists = false then
    { created_dir := true, documents := [], errors := [] }
  else
    let s := scanFiles parseYaml tags files
    { created_dir := false, documents := s.1, errors := s.2 }

/-- Spec-side inclusion predicate, written from the spec's words for the
refinement comparison with `load_documents`: only markdown-like files
are subject to a non-empty tag filter, a markdown file is included iff
its front-matter tag list shares at least one tag with the filter, and
unreadable files are never included. -/
def specIncluded (parseYaml : List Char → Option FrontMatter)
    (tags : List String) (f : SrcFile) : Bool :=
  match f.read with
  | ReadResult.err _ => false
  | ReadResult.ok content =>
    if tags.isEmpty then true
    else if hasMdExt f.path then
      tags.any (fun t =>
        (fmTags (extract_yaml_front_matter parseYaml content)).contains t)
    else true

/-- The content of a file that read successfully. -/
def readContent (f : SrcFile) : Option (List Char) :=
  match f.read with
  | ReadResult.ok content => some content
  | ReadResult.err _ => none

/-- Whether reading the file failed. -/
def isReadError (f : SrcFile) : Bool :=
  match f.read with
  | ReadResult.ok _ => false
  | ReadResult.err _ => true

/-! ## `create_or_load_index` (`search.py`): calling convention and
storage behaviour

`def create_or_load_index(documents, embeddings, index_name="history_index")`
has three parameters, one of them with a default.  `crosslinker.main`
calls it with four positional arguments
(`create_or_load_index(documents, embeddings, args.index, args.rebuild_index)`),
which Python rejects with a `TypeError` before the body runs. -/

/-- Parameter names of `search.create_or_load_index`, in order. -/
def create_or_load_index_params : List String :=
  ["documents", "embeddings", "index_name"]

/-- Number of those parameters that carry a default value
(`index_name = "history_index"`). -/
def create_or_load_index_num_defaults : Nat := 1

/-- Python positional-call acceptance: a call with `numArgs` positional
arguments binds iff it supplies at least the non-defaulted parameters
and at most all parameters; otherwise Python raises `TypeError`. -/
def pyCallAccepted (numParams numDefaults numArgs : Nat) : Bool :=
  decide (numParams - numDefaults ≤ numArgs) && decide (numArgs ≤ numParams)

/-- Number of positional arguments in the `crosslinker.main` call
`create_or_load_index(documents, embeddings, args.index, args.rebuild_index)`. -/
def crosslinker_call_num_args : Nat := 4

/-- Number of positional arguments in the `search.main` and
`articlegenerator.main` calls `create_or_load_index(documents, embeddings, index_name)`. -/
def search_call_num_args : Nat := 3

/-- Storage operations performed by `create_or_load_index`, plus the
temporary-write and rename operations the spec's atomic-save discipline
would require (they never occur in the embedded code; they exist so the
discipline is expressible over traces). -/
inductive IndexOp where
  | split_documents (nDocs : Nat)
  | load_local (name : String)
  | from_documents (nChunks : Nat)
  | save_local (name : String)
  | write_temp (name : String)
  | rename_into (tmp dst : String)
deriving DecidableEq

/-- Effect trace of `create_or_load_index(documents, embeddings, index_name)`
(the accepted three-argument form).  `dirExists` is
`os.path.exists(index_name) and os.path.isdir(index_name)`; `loadOk` is
whether `FAISS.load_local` succeeds (its exception is caught and falls
through to the rebuild).  The rebuild path embeds
`FAISS.from_documents(chunks, embeddings)` followed by
`vector_db.save_local(index_name)` — a direct save at the live index
location. -/
def create_or_load_index_trace (dirExists loadOk : Bool)
    (nDocs nChunks : Nat) (index_name : String) : List IndexOp :=
  IndexOp.split_documents nDocs ::
  (if dirExists then
    IndexOp.load_local index_name ::
      (if loadOk then []
       else [IndexOp.from_documents nChunks, IndexOp.save_local index_name])
  else [IndexOp.from_documents nChunks, IndexOp.save_local index_name])

/-- Whether a trace writes the live location `live` in place. -/
def mutatesLiveInPlace (live : String) (tr : List IndexOp) : Bool :=
  tr.any (fun op => decide (op = IndexOp.save_local live))

/-- Whether a trace ever performs a rename-into-place (the second half
of the spec's write-to-temporary-then-rename discipline). -/
def usesRenameIntoPlace (tr : List IndexOp) : Bool :=
  tr.any (fun op =>
    match op with
    | IndexOp.rename_into _ _ => true
    | _ => false)

/-- Whether a trace ever writes a temporary location. -/
def usesTempWrite (tr : List IndexOp) : Bool :=
  tr.any (fun op =>
    match op with
    | IndexOp.write_temp _ => true
    | _ => false)

/-! ## Concurrent rebuilds (`create_or_load_index` has no lock)

`create_or_load_index` contains no synchronisation, so two concurrent
callers' rebuild steps may interleave arbitrarily; a schedule is any
interleaving of the two callers' action sequences. -/

/-- The observable phases of one caller's rebuild, tagged by caller id. -/
inductive RebuildAction where
  | beginRebuild (call : Nat)
  | endRebuild (call : Nat)
deriving DecidableEq

/-- One `create_or_load_index` rebuild execution by caller `k`: it
starts, runs (chunk/embed/build/save), and finishes. -/
def rebuildCallTrace (k : Nat) : List RebuildAction :=
  [RebuildAction.beginRebuild k, RebuildAction.endRebuild k]

/-- `Interleaving xs ys zs`: `zs` is an order-preserving merge of `xs`
and `ys` — the schedules possible for two unsynchronised callers. -/
inductive Interleaving : List RebuildAction → List RebuildAction → List RebuildAction → Prop where
  | nil : Interleaving [] [] []
  | left {x xs ys zs} : Interleaving xs ys zs → Interleaving (x :: xs) ys (x :: zs)
  | right {y xs ys zs} : Interleaving xs ys zs → Interleaving xs (y :: ys) (y :: zs)

/-- Number of rebuild executions a schedule performs. -/
def rebuildExecutions (tr : List RebuildAction) : Nat :=
  tr.countP (fun a =>
    match a with
    | RebuildAction.beginRebuild _ => true
    | RebuildAction.endRebuild _ => false)

/-- Largest number of simultaneously in-flight rebuilds along a
schedule, starting from `cur` in flight. -/
def maxInFlightAux (cur : Nat) : List RebuildAction → Nat
  | [] => cur
  | RebuildAction.beginRebuild _ :: rest =>
    max (cur + 1) (maxInFlightAux (cur + 1) rest)
  | RebuildAction.endRebuild _ :: rest => maxInFlightAux (cur - 1) rest

/-- Largest number of simultaneously in-flight rebuilds of a schedule. -/
def maxInFlight (tr : List RebuildAction) : Nat :=
  maxInFlightAux 0 tr

/-! ## Cross-linker (`crosslinker.py`) -/

/-- `os.path.basename` on a character list: the part after the last
`/`. -/
def basenameChars (s : List Char) : List Char :=
  s.foldl (fun acc ch => if ch = '/' then [] else acc ++ [ch]) []

/-- `os.path.basename`. -/
def basename (s : String) : String :=
  String.mk (basenameChars s.data)

/-- An `Article` as built in `crosslinker.load_articles`:
`is_published` is `front_matter.get("Published", False)`;
`outgoing_links` is the article's `outgoing_links` set, kept as a
duplicate-free list.  Title/keyword/tag metadata only flows into the
abstract vector store and is not tracked. -/
structure Article where
  file_path : String
  content : List Char
  is_published : Bool
  outgoing_links : List String
deriving DecidableEq

/-- `Article.filename = os.path.basename(file_path)`. -/
def Article.filename (a : Article) : String :=
  basename a.file_path

/-- `Article._extract_main_content`: the content after the closing
front-matter fence, stripped; the unchanged content when there is no
fence. -/
def extract_main_content (content : List Char) : List Char :=
  match content with
  | '-' :: '-' :: '-' :: rest =>
    match findDashes rest 3 with
    | some endIndex => pyStrip (content.drop (endIndex + 3))
    | none => content
  | _ => content

/-- The text `find_related_articles` queries with. -/
def Article.main_content (a : Article) : List Char :=
  extract_main_content a.content

/-- `Article.add_outgoing_link`: set insertion. -/
def addLink (links : List String) (target : String) : List String :=
  if links.contains target then links else links ++ [target]

/-- Fold of `add_outgoing_link` over several targets. -/
def addLinks (links : List String) (targets : List String) : List String :=
  targets.foldl addLink links

/-- `target.split('#')[0].strip()` in `detect_existing_links`. -/
def cleanTarget (t : List Char) : List Char :=
  pyStrip (t.takeWhile (fun c => c ≠ '#'))

/-- `clean_target.endswith('.md')`. -/
def endsWithMd (c : List Char) : Bool :=
  match c.reverse with
  | 'd' :: 'm' :: '.' :: _ => true
  | _ => false

/-- `crosslinker.detect_existing_links`.  `findMatches` is
`re.findall(r'\[.+?\]\(\.?/?(.*?)\)', content)` — the regular-expression
engine is an external collaborator; the per-match cleaning, `.md` check
and basename insertion are embedded from the source. -/
def detect_existing_links (findMatches : List Char → List (List Char))
    (articles : List Article) : List Article :=
  articles.map (fun a =>
    { a with
        outgoing_links :=
          addLinks a.outgoing_links
            ((findMatches a.content).filterMap (fun t =>
              let c := cleanTarget t
              if endsWithMd c then some (String.mk (basenameChars c))
              else none)) })

/-- Metadata of a similarity-search result (built by
`prepare_documents_for_embedding` and returned by
`vector_db.similarity_search`). -/
structure DocMeta where
  filename : String
  title : String
deriving DecidableEq

/-- The result loop of `find_related_articles`: append every result that
is not the querying article itself, and break as soon as
`len(related) >= max_links_per_article` (the check runs after a
potential append). -/
def collectRelated (selfName : String) (maxLinks : Nat) :
    List DocMeta → List (String × String) → List (String × String)
  | [], related => related
  | doc :: rest, related =>
    let related' :=
      if doc.filename ≠ selfName then related ++ [(doc.filename, doc.title)]
      else related
    if maxLinks ≤ related'.length then related'
    else collectRelated selfName maxLinks rest related'

/-- Per-article step of `find_related_articles`: unpublished articles
and articles that already have outgoing links are skipped (`none`);
otherwise the article's main content is queried with
`k = max_links_per_article + 1` and the result loop runs from an empty
list. -/
def processArticle (vdb : List Char → Nat → List DocMeta)
    (maxLinks : Nat) (a : Article) : Option (List (String × String)) :=
  if a.is_published = false then none
  else if a.outgoing_links.isEmpty = false then none
  else some (collectRelated a.filename maxLinks
    (vdb a.main_content (maxLinks + 1)) [])

/-- Python dictionary assignment `d[k] = v`, on the embedding of a
dictionary as a lookup function. -/
def dictUpdate (d : String → Option (List (String × String)))
    (k : String) (v : List (String × String)) :
    String → Option (List (String × String)) :=
  fun k' => if k' = k then some v else d k'

/-- `crosslinker.find_related_articles`: returns the `related_links`
dictionary (filename ↦ list of `(target_filename, target_title)`) and
the articles with their `outgoing_links` updated by the appended
targets. -/
def find_related_articles (vdb : List Char → Nat → List DocMeta)
    (maxLinks : Nat) (articles : List Article) :
    (String → Option (List (String × String))) × List Article :=
  (articles.foldl (fun d a =>
      match processArticle vdb maxLinks a with
      | some rel => dictUpdate d a.filename rel
      | none => d) (fun _ => none),
   articles.map (fun a =>
      match processArticle vdb maxLinks a with
      | some rel => { a with outgoing_links := addLinks a.outgoing_links (rel.map Prod.fst) }
      | none => a))

/-- `os.path.splitext(...)[0]`: drop the text from the last dot on.
(The Python special case for a leading-dot basename is not modelled; it
is not exercised here.) -/
def splitextRoot (s : List Char) : List Char :=
  if s.any (fun c => c = '.') then
    (((s.reverse.dropWhile (fun c => c ≠ '.')).drop 1)).reverse
  else s

/-- The `## Related Articles` section built by
`Article.update_content_with_links` for a non-empty link list. -/
def relatedSection (links : List (String × String)) : List Char :=
  "\n\n## Related Articles\n\n".data ++
  (links.foldl (fun acc p =>
    acc ++ "* [[".data ++ splitextRoot p.1.data ++ "|".data ++
      p.2.data ++ "]]\n".data) [])

/-- `Article.update_content_with_links`.  `reSub` embeds
`re.sub(r"## Related Articles\s*\n([\s\S]*?)(?=\n##|\Z)", section, content)`
(the regular-expression engine is an external collaborator), taking the
replacement section and the content; it is only reached when the content
already contains a `## Related Articles` heading. -/
def update_content_with_links (reSub : List Char → List Char → List Char)
    (content : List Char) (links : List (String × String)) : List Char :=
  if links.isEmpty then content
  else if containsSub content "## Related Articles".data then
    reSub (relatedSection links) content
  else content ++ relatedSection links

/-- `crosslinker.update_articles_with_links`: the file writes performed
(path, new content) in article order, and `updated_count`.  A
non-published article, or one whose filename has no non-empty entry in
`related_links`, is not written. -/
def update_articles_with_links (reSub : List Char → List Char → List Char)
    (articles : List Article)
    (related_links : String → Option (List (String × String))) :
    List (String × List Char) × Nat :=
  let writes := articles.filterMap (fun a =>
    if a.is_published = false then none
    else
      match (related_links a.filename).getD [] with
      | [] => none
      | l => some (a.file_path, update_content_with_links reSub a.content l))
  (writes, writes.length)

/-! ## Chunker

Modelled from the spec: the repository delegates chunking to
`RecursiveCharacterTextSplitter(chunk_size=1000, chunk_overlap=100)`, an
external library whose source is not part of this repository, so the
spec's Chunker contract (§4.2) is embedded directly: fixed-size chunks,
consecutive chunks of the same document overlapping by `overlap`, with
`overlap < chunkSize` required. -/

/-- Modelled from the spec: `split(document, chunkSize, overlap)` — the
first chunk is the first `size` units, and each next chunk starts
`size - overlap` units later; the final chunk may be shorter.  Total by
the guard `overlap < size` (when it fails, the whole content is one
chunk). -/
def splitChunks (size overlap : Nat) (c : List Char) : List (List Char) :=
  if h : c.isEmpty then []
  else if ho : overlap < size then
    c.take size :: splitChunks size overlap (c.drop (size - overlap))
  else [c]
termination_by c.length
decreasing_by
  simp only [List.length_drop]
  have hc : 0 < c.length := by
    cases c with
    | nil => simp [List.isEmpty] at h
    | cons x xs => simp
  omega

/-- Concatenation of the chunk texts with the overlaps removed: the
first chunk whole, each later chunk minus its first `overlap` units. -/
def reconstructChunks (overlap : Nat) : List (List Char) → List Char
  | [] => []
  | h :: t => h ++ (t.map (List.drop overlap)).flatten

/-! ## Spec-side scan characterisation and concrete test data -/

/-- Spec-side description of the scan, for the refinement comparison
with `load_documents`: keep exactly the files `specIncluded` accepts,
as documents. -/
def specLoadDocuments (parseYaml : List Char → Option FrontMatter)
    (tags : List String) (files : List SrcFile) : List Document :=
  files.filterMap (fun f =>
    if specIncluded parseYaml tags f then (readContent f).map (mkDoc f)
    else none)

/-- Front-matter payload of the first test file. -/
def tfYamlA : List Char := "tags: [seo, draft]".data

/-- Front-matter payload of the second test file. -/
def tfYamlB : List Char := "tags: [news]".data

/-- Front-matter payload of the third test file. -/
def tfYamlC : List Char := "tags: [seo]".data

/-- Concrete stand-in for `yaml.safe_load` on the three payloads above. -/
def tfParseYaml : List Char → Option FrontMatter := fun s =>
  if s = tfYamlA then some { tags := ["seo", "draft"], published := false }
  else if s = tfYamlB then some { tags := ["news"], published := false }
  else if s = tfYamlC then some { tags := ["seo"], published := false }
  else none

/-- Content of the first test markdown file (tags `["seo","draft"]`). -/
def tfContent1 : List Char := "---\ntags: [seo, draft]\n---\nAlpha".data

/-- Content of the second test markdown file (tags `["news"]`). -/
def tfContent2 : List Char := "---\ntags: [news]\n---\nBeta".data

/-- Content of the third test markdown file (tags `["seo"]`). -/
def tfContent3 : List Char := "---\ntags: [seo]\n---\nGamma".data

/-- First test file. -/
def tfFile1 : SrcFile := { path := "kb/a.md", read := ReadResult.ok tfContent1 }

/-- Second test file. -/
def tfFile2 : SrcFile := { path := "kb/b.md", read := ReadResult.ok tfContent2 }

/-- Third test file. -/
def tfFile3 : SrcFile := { path := "kb/c.md", read := ReadResult.ok tfContent3 }

/-! ## Concrete cross-linker run (two articles sharing a basename) -/

/-- Published article with no links, at `dir1/foo.md`. -/
def cxA : Article :=
  { file_path := "dir1/foo.md", content := "Alpha body".data,
    is_published := true, outgoing_links := [] }

/-- Published article at `dir2/foo.md` whose content already carries a
markdown link to `other.md`. -/
def cxB : Article :=
  { file_path := "dir2/foo.md", content := "See [other](other.md)".data,
    is_published := true, outgoing_links := [] }

/-- Published article at `dir1/bar.md`. -/
def cxBar : Article :=
  { file_path := "dir1/bar.md", content := "Bar body".data,
    is_published := true, outgoing_links := [] }

/-- `cxB` after the link scan has detected its existing outbound link. -/
def cxBdet : Article := { cxB with outgoing_links := ["other.md"] }

/-- Concrete regular-expression collaborator: the link pattern matches
once, in `cxB`'s content, capturing `other.md`. -/
def cxFindM : List Char → List (List Char) := fun c =>
  if c = cxB.content then ["other.md".data] else []

/-- Concrete vector store: querying with `cxA`'s body returns the
`bar.md` document; everything else returns nothing. -/
def cxVdb : List Char → Nat → List DocMeta := fun q _ =>
  if q = cxA.main_content then [{ filename := "bar.md", title := "Bar" }] else []

/-- Concrete `re.sub` collaborator (never reached by these contents). -/
def cxReSub : List Char → List Char → List Char := fun _ c => c

/-- The articles after `detect_existing_links`. -/
def cxArts1 : List Article := detect_existing_links cxFindM [cxA, cxB, cxBar]

/-- The `find_related_articles` result on the detected articles. -/
def cxFr : (String → Option (List (String × String))) × List Article :=
  find_related_articles cxVdb 3 cxArts1

/-- The file writes the cross-link pass then performs. -/
def cxWrites : List (String × List Char) :=
  (update_articles_with_links cxReSub cxFr.2 cxFr.1).1

end Seobrain

namespace Seobrain

/-! ## Theorems: debounce -/

/-- `burst` on two or more events splits into the head step and the
tail burst. -/
theorem burst_cons {c x y : Nat} {l : List Nat} :
    burst c (x :: y :: l) ↔ (x < y ∧ y ≤ x + c) ∧ burst c (y :: l) :=
  List.chain'_cons

/-- The check does nothing when no indexing is pending. -/
theorem checkIfShouldIndex_idle (t c L : Nat) :
    checkIfShouldIndex t c { last_event_time := L, pending_index := false } =
      (false, { last_event_time := L, pending_index := false }) := rfl

/-- The check keeps waiting while the cooldown has not elapsed since
the last event. -/
theorem checkIfShouldIndex_early (t c L : Nat) (hc : 0 < c) (h : t < L + c) :
    checkIfShouldIndex t c { last_event_time := L, pending_index := true } =
      (false, { last_event_time := L, pending_index := true }) := by
  unfold checkIfShouldIndex
  dsimp only
  rw [if_neg (by simp), if_neg (by omega)]

/-- The check fires once the cooldown has elapsed since the last
event, and clears the pending flag. -/
theorem checkIfShouldIndex_fire (t c L : Nat) (h : L + c ≤ t) :
    checkIfShouldIndex t c { last_event_time := L, pending_index := true } =
      (true, { last_event_time := L, pending_index := false }) := by
  unfold checkIfShouldIndex
  dsimp only
  rw [if_neg (by simp), if_pos (by omega)]

/-- Runs over the same clock times agree when the two event lists agree
on those times. -/
theorem debounceRun_congr (es1 es2 : List Nat) (c : Nat) :
    ∀ (ts : List Nat) (s : DebounceState),
      (∀ t ∈ ts, (t ∈ es1 ↔ t ∈ es2)) →
      debounceRun es1 c s ts = debounceRun es2 c s ts := by
  intro ts
  induction ts with
  | nil => intro s _; rfl
  | cons t ts ih =>
    intro s h
    have ht : (t ∈ es1) ↔ (t ∈ es2) := h t (List.mem_cons_self t ts)
    simp only [debounceRun, ht]
    rw [ih _ (fun x hx => h x (List.mem_cons_of_mem t hx))]

/-- Runs compose over concatenated time lists. -/
theorem debounceRun_append (es : List Nat) (c : Nat) :
    ∀ (l1 l2 : List Nat) (s : DebounceState),
      debounceRun es c s (l1 ++ l2) =
        ((debounceRun es c s l1).1 ++
          (debounceRun es c (debounceRun es c s l1).2 l2).1,
         (debounceRun es c (debounceRun es c s l1).2 l2).2) := by
  intro l1
  induction l1 with
  | nil => intro l2 s; rfl
  | cons t l1 ih =>
    intro l2 s
    simp only [List.cons_append, debounceRun, List.append_eq]
    rw [ih]
    by_cases hf : (checkIfShouldIndex t c
        (if t ∈ es then scheduleIndexing t s else s)).1 = true <;>
      simp [hf]

/-- A quiet stretch (no events, nothing pending) changes nothing. -/
theorem debounceRun_idle (es : List Nat) (c L : Nat) :
    ∀ ts : List Nat, (∀ t ∈ ts, t ∉ es) →
      debounceRun es c { last_event_time := L, pending_index := false } ts =
        ([], { last_event_time := L, pending_index := false }) := by
  intro ts
  induction ts with
  | nil => intro _; rfl
  | cons t ts ih =>
    intro h
    simp only [debounceRun]
    rw [if_neg (h t (List.mem_cons_self t ts)), checkIfShouldIndex_idle]
    simp [ih (fun x hx => h x (List.mem_cons_of_mem t hx))]

/-- An event-free stretch inside the cooldown window keeps the pending
state untouched. -/
theorem debounceRun_pending_quiet (es : List Nat) (c e : Nat) (hc : 0 < c) :
    ∀ ts : List Nat, (∀ t ∈ ts, t ∉ es ∧ t < e + c) →
      debounceRun es c { last_event_time := e, pending_index := true } ts =
        ([], { last_event_time := e, pending_index := true }) := by
  intro ts
  induction ts with
  | nil => intro _; rfl
  | cons t ts ih =>
    intro h
    simp only [debounceRun]
    rw [if_neg (h t (List.mem_cons_self t ts)).1,
      checkIfShouldIndex_early t c e hc (h t (List.mem_cons_self t ts)).2]
    simp [ih (fun x hx => h x (List.mem_cons_of_mem t hx))]

/-- In a burst the first event is no later than the last. -/
theorem burst_head_le_last (c : Nat) :
    ∀ (es : List Nat) (e L : Nat), burst c es → es.head? = some e →
      es.getLast? = some L → e ≤ L := by
  intro es
  induction es with
  | nil => intro e L _ hh _; simp at hh
  | cons e0 rest ih =>
    intro propE L hb hh hl
    have he : e0 = propE := by simpa using hh
    subst he
    cases rest with
    | nil =>
      have : e0 = L := by simpa using hl
      omega
    | cons e1 rest' =>
      rw [List.getLast?_cons_cons] at hl
      have h01 : e0 < e1 := (burst_cons.1 hb).1.1
      have := ih e1 L (burst_cons.1 hb).2 rfl hl
      omega

/-- Every event of a burst is at or after the first one. -/
theorem burst_head_le_mem (c : Nat) :
    ∀ (es : List Nat) (e : Nat), burst c es → es.head? = some e →
      ∀ x ∈ es, e ≤ x := by
  intro es
  induction es with
  | nil => intro e _ hh; simp at hh
  | cons e0 rest ih =>
    intro propE hb hh x hx
    have he : e0 = propE := by simpa using hh
    subst he
    rcases List.mem_cons.1 hx with rfl | hx
    · exact Nat.le_refl _
    · cases rest with
      | nil => simp at hx
      | cons e1 rest' =>
        have h01 : e0 < e1 := (burst_cons.1 hb).1.1
        have := ih e1 (burst_cons.1 hb).2 rfl x hx
        omega

/-- Every event of a burst is at or before the last one. -/
theorem burst_mem_le_last (c : Nat) :
    ∀ (es : List Nat) (L : Nat), burst c es → es.getLast? = some L →
      ∀ x ∈ es, x ≤ L := by
  intro es
  induction es with
  | nil => intro L _ _ x hx; simp at hx
  | cons e0 rest ih =>
    intro L hb hl x hx
    rcases List.mem_cons.1 hx with rfl | hx
    · exact burst_head_le_last c (x :: rest) x L hb rfl hl
    · cases rest with
      | nil => simp at hx
      | cons e1 rest' =>
        rw [List.getLast?_cons_cons] at hl
        exact ih L (burst_cons.1 hb).2 hl x hx

/-- Splitting a contiguous range of clock times at an interior point. -/
theorem range'_split_at (a b N : Nat) (hab : a ≤ b) (hbN : b ≤ N) :
    List.range' a (N - a) = List.range' a (b - a) ++ List.range' b (N - b) := by
  have h := List.range'_append_1 a (b - a) (N - b)
  rw [(by omega : a + (b - a) = b)] at h
  rw [(by omega : (N - b) + (b - a) = N - a)] at h
  exact h.symm

/-- Running over the window from the first event of a burst to the
moment the cooldown elapses after its last event fires exactly once, at
`L + c`, from any starting state. -/
theorem debounceRun_burst (c : Nat) (hc : 0 < c) :
    ∀ (es : List Nat) (e L : Nat) (s : DebounceState),
      burst c es → es.head? = some e → es.getLast? = some L →
      debounceRun es c s (List.range' e (L + c + 1 - e)) =
        ([L + c], { last_event_time := L, pending_index := false }) := by
  intro es
  induction es with
  | nil => intro e L s _ hh _; simp at hh
  | cons e0 rest ih =>
    intro propE L s hb hh hl
    have he : e0 = propE := by simpa using hh
    subst he
    cases rest with
    | nil =>
      have hL : e0 = L := by simpa using hl
      subst hL
      have hN : e0 + c + 1 - e0 = c + 1 := by omega
      rw [hN, List.range'_succ]
      have hsplit : List.range' (e0+1) (c-1) ++ List.range' (e0 + c) 1 =
          List.range' (e0+1) c := by
        have h1 := List.range'_append_1 (e0+1) (c-1) 1
        rw [(by omega : e0 + 1 + (c - 1) = e0 + c)] at h1
        rw [(by omega : 1 + (c - 1) = c)] at h1
        exact h1
      rw [← hsplit]
      simp only [debounceRun, scheduleIndexing]
      rw [if_pos (List.mem_cons_self e0 [])]
      rw [checkIfShouldIndex_early e0 c e0 hc (by omega)]
      have hquiet : debounceRun [e0] c
          { last_event_time := e0, pending_index := true }
          (List.range' (e0+1) (c-1)) =
          ([], { last_event_time := e0, pending_index := true }) := by
        apply debounceRun_pending_quiet [e0] c e0 hc
        intro t ht
        rw [List.mem_range'_1] at ht
        constructor
        · simp only [List.mem_singleton]
          omega
        · omega
      rw [debounceRun_append, hquiet]
      have hfire : debounceRun [e0] c
          { last_event_time := e0, pending_index := true }
          [e0 + c] =
          ([e0 + c], { last_event_time := e0, pending_index := false }) := by
        simp only [debounceRun]
        rw [if_neg (show ¬ (e0 + c ∈ [e0]) by
          simp only [List.mem_singleton]; omega)]
        rw [checkIfShouldIndex_fire (e0 + c) c e0 (by omega)]
        simp
      simp [hfire]
    | cons e1 rest' =>
      have h01 : e0 < e1 ∧ e1 ≤ e0 + c := (burst_cons.1 hb).1
      have hbtail : burst c (e1 :: rest') := (burst_cons.1 hb).2
      rw [List.getLast?_cons_cons] at hl
      have he1L : e1 ≤ L := burst_head_le_last c (e1 :: rest') e1 L hbtail rfl hl
      have htail_ge : ∀ x ∈ e1 :: rest', e1 ≤ x :=
        burst_head_le_mem c (e1 :: rest') e1 hbtail rfl
      have hsplit : List.range' e0 (L + c + 1 - e0) =
          List.range' e0 (e1 - e0) ++ List.range' e1 (L + c + 1 - e1) :=
        range'_split_at e0 e1 (L + c + 1) (by omega) (by omega)
      rw [hsplit, debounceRun_append]
      have hfirst : debounceRun (e0 :: e1 :: rest') c s
          (List.range' e0 (e1 - e0)) =
          ([], { last_event_time := e0, pending_index := true }) := by
        have hr : List.range' e0 (e1 - e0) =
            e0 :: List.range' (e0+1) (e1 - e0 - 1) := by
          rw [(by omega : e1 - e0 = (e1 - e0 - 1) + 1), List.range'_succ]
          simp
        rw [hr]
        simp only [debounceRun, scheduleIndexing]
        rw [if_pos (List.mem_cons_self e0 (e1 :: rest'))]
        rw [checkIfShouldIndex_early e0 c e0 hc (by omega)]
        have hquiet : debounceRun (e0 :: e1 :: rest') c
            { last_event_time := e0, pending_index := true }
            (List.range' (e0+1) (e1 - e0 - 1)) =
            ([], { last_event_time := e0, pending_index := true }) := by
          apply debounceRun_pending_quiet (e0 :: e1 :: rest') c e0 hc
          intro t ht
          rw [List.mem_range'_1] at ht
          constructor
          · intro hmem
            rcases List.mem_cons.1 hmem with rfl | hmem
            · omega
            · have := htail_ge t hmem
              omega
          · omega
        simp [hquiet]
      rw [hfirst]
      have hsecond : debounceRun (e0 :: e1 :: rest') c
          { last_event_time := e0, pending_index := true }
          (List.range' e1 (L + c + 1 - e1)) =
          ([L + c], { last_event_time := L, pending_index := false }) := by
        rw [debounceRun_congr (e0 :: e1 :: rest') (e1 :: rest') c
          (List.range' e1 (L + c + 1 - e1))
          { last_event_time := e0, pending_index := true } ?_]
        · exact ih e1 L { last_event_time := e0, pending_index := true }
            hbtail rfl hl
        · intro t ht
          rw [List.mem_range'_1] at ht
          rw [List.mem_cons]
          have : t ≠ e0 := by omega
          simp [this]
      simp [hsecond]

/-- One burst of events produces exactly one rebuild, at the last event
time plus the cooldown. -/
theorem rebuildTimes_one_burst (es : List Nat) (e L c h : Nat)
    (hc : 0 < c) (hb : burst c es) (hh : es.head? = some e)
    (hl : es.getLast? = some L) (hcov : L + c ≤ h) :
    rebuildTimes es c h = [L + c] := by
  have heL : e ≤ L := burst_head_le_last c es e L hb hh hl
  have hmemge := burst_head_le_mem c es e hb hh
  have hmemle := burst_mem_le_last c es L hb hl
  unfold rebuildTimes
  have hs1 : List.range' 0 (h + 1) =
      List.range' 0 e ++ List.range' e (h + 1 - e) :=
    range'_split_at 0 e (h + 1) (Nat.zero_le _) (by omega)
  have hs2 : List.range' e (h + 1 - e) =
      List.range' e (L + c + 1 - e) ++
        List.range' (L + c + 1) (h + 1 - (L + c + 1)) :=
    range'_split_at e (L + c + 1) (h + 1) (by omega) (by omega)
  rw [hs1, hs2]
  simp only [debounceRun_append]
  have hq1 : debounceRun es c
      { last_event_time := 0, pending_index := false } (List.range' 0 e) =
      ([], { last_event_time := 0, pending_index := false }) := by
    apply debounceRun_idle
    intro t ht hmem
    rw [List.mem_range'_1] at ht
    have := hmemge t hmem
    omega
  have hq2 := debounceRun_burst c hc es e L
    { last_event_time := 0, pending_index := false } hb hh hl
  have hq3 : debounceRun es c
      { last_event_time := L, pending_index := false }
      (List.range' (L + c + 1) (h - (L + c))) =
      ([], { last_event_time := L, pending_index := false }) := by
    apply debounceRun_idle
    intro t ht hmem
    rw [List.mem_range'_1] at ht
    have := hmemle t hmem
    omega
  simp [hq1, hq2, hq3]

/-- Two bursts separated by more than the cooldown produce two separate
rebuilds, one per burst. -/
theorem rebuildTimes_two_bursts (es1 es2 : List Nat)
    (e1 L1 e2 L2 c h : Nat) (hc : 0 < c)
    (hb1 : burst c es1) (hh1 : es1.head? = some e1)
    (hl1 : es1.getLast? = some L1)
    (hb2 : burst c es2) (hh2 : es2.head? = some e2)
    (hl2 : es2.getLast? = some L2)
    (hsep : L1 + c < e2) (hcov : L2 + c ≤ h) :
    rebuildTimes (es1 ++ es2) c h = [L1 + c, L2 + c] := by
  have he1L1 : e1 ≤ L1 := burst_head_le_last c es1 e1 L1 hb1 hh1 hl1
  have he2L2 : e2 ≤ L2 := burst_head_le_last c es2 e2 L2 hb2 hh2 hl2
  have hge1 := burst_head_le_mem c es1 e1 hb1 hh1
  have hle1 := burst_mem_le_last c es1 L1 hb1 hl1
  have hge2 := burst_head_le_mem c es2 e2 hb2 hh2
  have hle2 := burst_mem_le_last c es2 L2 hb2 hl2
  unfold rebuildTimes
  have hs1 : List.range' 0 (h + 1) =
      List.range' 0 e1 ++ List.range' e1 (h + 1 - e1) :=
    range'_split_at 0 e1 (h + 1) (Nat.zero_le _) (by omega)
  have hs2 : List.range' e1 (h + 1 - e1) =
      List.range' e1 (L1 + c + 1 - e1) ++
        List.range' (L1 + c + 1) (h + 1 - (L1 + c + 1)) :=
    range'_split_at e1 (L1 + c + 1) (h + 1) (by omega) (by omega)
  have hs3 : List.range' (L1 + c + 1) (h + 1 - (L1 + c + 1)) =
      List.range' (L1 + c + 1) (e2 - (L1 + c + 1)) ++
        List.range' e2 (h + 1 - e2) :=
    range'_split_at (L1 + c + 1) e2 (h + 1) (by omega) (by omega)
  have hs4 : List.range' e2 (h + 1 - e2) =
      List.range' e2 (L2 + c + 1 - e2) ++
        List.range' (L2 + c + 1) (h + 1 - (L2 + c + 1)) :=
    range'_split_at e2 (L2 + c + 1) (h + 1) (by omega) (by omega)
  rw [hs1, hs2, hs3, hs4]
  simp only [debounceRun_append]
  have hnotin : ∀ t : Nat, t < e1 → t ∉ es1 ++ es2 := by
    intro t ht hmem
    rcases List.mem_append.1 hmem with hmem | hmem
    · have := hge1 t hmem; omega
    · have := hge2 t hmem; omega
  have hqA : debounceRun (es1 ++ es2) c
      { last_event_time := 0, pending_index := false } (List.range' 0 e1) =
      ([], { last_event_time := 0, pending_index := false }) := by
    apply debounceRun_idle
    intro t ht
    rw [List.mem_range'_1] at ht
    exact hnotin t (by omega)
  have hqB : debounceRun (es1 ++ es2) c
      { last_event_time := 0, pending_index := false }
      (List.range' e1 (L1 + c + 1 - e1)) =
      ([L1 + c], { last_event_time := L1, pending_index := false }) := by
    rw [debounceRun_congr (es1 ++ es2) es1 c
      (List.range' e1 (L1 + c + 1 - e1))
      { last_event_time := 0, pending_index := false } ?_]
    · exact debounceRun_burst c hc es1 e1 L1 _ hb1 hh1 hl1
    · intro t ht
      rw [List.mem_range'_1] at ht
      rw [List.mem_append]
      have : t ∉ es2 := by
        intro hmem
        have := hge2 t hmem
        omega
      simp [this]
  have hqC : debounceRun (es1 ++ es2) c
      { last_event_time := L1, pending_index := false }
      (List.range' (L1 + c + 1) (e2 - (L1 + c + 1))) =
      ([], { last_event_time := L1, pending_index := false }) := by
    apply debounceRun_idle
    intro t ht hmem
    rw [List.mem_range'_1] at ht
    rcases List.mem_append.1 hmem with hmem | hmem
    · have := hle1 t hmem; omega
    · have := hge2 t hmem; omega
  have hqD : debounceRun (es1 ++ es2) c
      { last_event_time := L1, pending_index := false }
      (List.range' e2 (L2 + c + 1 - e2)) =
      ([L2 + c], { last_event_time := L2, pending_index := false }) := by
    rw [debounceRun_congr (es1 ++ es2) es2 c
      (List.range' e2 (L2 + c + 1 - e2))
      { last_event_time := L1, pending_index := false } ?_]
    · exact debounceRun_burst c hc es2 e2 L2 _ hb2 hh2 hl2
    · intro t ht
      rw [List.mem_range'_1] at ht
      rw [List.mem_append]
      have : t ∉ es1 := by
        intro hmem
        have := hle1 t hmem
        omega
      simp [this]
  have hqE : debounceRun (es1 ++ es2) c
      { last_event_time := L2, pending_index := false }
      (List.range' (L2 + c + 1) (h - (L2 + c))) =
      ([], { last_event_time := L2, pending_index := false }) := by
    apply debounceRun_idle
    intro t ht hmem
    rw [List.mem_range'_1] at ht
    rcases List.mem_append.1 hmem with hmem | hmem
    · have := hle1 t hmem; omega
    · have := hle2 t hmem; omega
  simp [hqA, hqB, hqC, hqD, hqE]

/-- C2: in the embedded watcher loop (events delivered at their
timestamp, the periodic check running once a second), a burst of events
each within `cooldown` of the previous one triggers exactly one
rebuild, at the last event time plus `cooldown` and never earlier; two
bursts separated by more than `cooldown` trigger exactly two separate
rebuilds; concretely, with `cooldown = 5` and events at `t = 0, 2, 4`,
exactly one rebuild fires, at `t = 9`. -/
theorem debounce_coalesces_bursts :
    (∀ (es : List Nat) (e L c h : Nat), 0 < c → burst c es →
      es.head? = some e → es.getLast? = some L → L + c ≤ h →
      rebuildTimes es c h = [L + c]) ∧
    (∀ (es1 es2 : List Nat) (e1 L1 e2 L2 c h : Nat), 0 < c →
      burst c es1 → es1.head? = some e1 → es1.getLast? = some L1 →
      burst c es2 → es2.head? = some e2 → es2.getLast? = some L2 →
      L1 + c < e2 → L2 + c ≤ h →
      rebuildTimes (es1 ++ es2) c h = [L1 + c, L2 + c]) ∧
    rebuildTimes [0, 2, 4] 5 15 = [9] := by
  refine ⟨?_, ?_, by decide⟩
  · intro es e L c h hc hb hh hl hcov
    exact rebuildTimes_one_burst es e L c h hc hb hh hl hcov
  · intro es1 es2 e1 L1 e2 L2 c h hc hb1 hh1 hl1 hb2 hh2 hl2 hsep hcov
    exact rebuildTimes_two_bursts es1 es2 e1 L1 e2 L2 c h hc
      hb1 hh1 hl1 hb2 hh2 hl2 hsep hcov

theorem debounce_coalesces_bursts_witness :
    rebuildTimes [0, 2, 4] 5 15 = [9] ∧
    rebuildTimes ([0] ++ [9]) 5 20 = [5, 14] :=
  ⟨debounce_coalesces_bursts.1 [0, 2, 4] 0 4 5 15 (by decide)
      (by simp [burst, List.chain'_cons]) (by decide) (by decide) (by decide),
   debounce_coalesces_bursts.2.1 [0] [9] 0 0 9 9 5 20 (by decide)
      (by simp [burst]) (by decide) (by decide) (by simp [burst]) (by decide)
      (by decide) (by decide) (by decide)⟩

/-! ## Theorems: document loading -/

/-- The documents produced by the per-file loop are exactly the
spec-side selection. -/
theorem scanFiles_documents (parseYaml : List Char → Option FrontMatter)
    (tags : List String) :
    ∀ files : List SrcFile,
      (scanFiles parseYaml tags files).1 = specLoadDocuments parseYaml tags files := by
  intro files
  induction files with
  | nil => rfl
  | cons f fs ih =>
    unfold scanFiles specLoadDocuments
    simp only [List.filterMap_cons]
    cases hr : f.read with
    | err m =>
      simpa [specIncluded, readContent, hr, specLoadDocuments] using ih
    | ok content =>
      by_cases he : tags.isEmpty <;>
        by_cases hm : hasMdExt f.path <;>
          by_cases ha : ∃ x ∈ tags,
            x ∈ fmTags (extract_yaml_front_matter parseYaml content) <;>
            simp [specIncluded, readContent, hr, he, hm, ha, ih, specLoadDocuments]

/-- The errors recorded by the per-file loop are exactly the paths of
the files whose read failed, in scan order. -/
theorem scanFiles_errors (parseYaml : List Char → Option FrontMatter)
    (tags : List String) :
    ∀ files : List SrcFile,
      (scanFiles parseYaml tags files).2 =
        (files.filter isReadError).map SrcFile.path := by
  intro files
  induction files with
  | nil => rfl
  | cons f fs ih =>
    unfold scanFiles
    cases hr : f.read with
    | err m => simp [isReadError, hr, ih]
    | ok content =>
      by_cases he : tags.isEmpty <;>
        by_cases hm : hasMdExt f.path <;>
          by_cases ha : ∃ x ∈ tags,
            x ∈ fmTags (extract_yaml_front_matter parseYaml content) <;>
            simp [isReadError, hr, he, hm, ha, ih]

/-- C10: calling `load_documents` on a directory that does not exist
creates the directory and returns an empty document sequence rather
than raising, and a scan of a freshly created (empty) directory yields
zero documents. -/
theorem load_documents_missing_dir :
    ∀ (parseYaml : List Char → Option FrontMatter) (files : List SrcFile)
      (tags : List String),
      load_documents parseYaml false files tags =
        { created_dir := true, documents := [], errors := [] } ∧
      (load_documents parseYaml true [] tags).documents = [] := by
  intro parseYaml files tags
  exact ⟨rfl, rfl⟩

/-- C5: with a non-empty tag filter only markdown files are subject to
the filter; a markdown file is included iff its front-matter tag list
shares a tag with the filter, and a markdown file without parseable
front matter (whose tag list defaults to `[]`) is excluded.  The scan
equals the spec-side selection for every input, and on the three
concrete markdown files with tags `["seo","draft"]`, `["news"]`,
`["seo"]`, filtering on `["seo"]` loads exactly the first and third. -/
theorem load_documents_tag_filtering :
    (∀ (parseYaml : List Char → Option FrontMatter) (tags : List String)
       (dirExists : Bool) (files : List SrcFile),
       (load_documents parseYaml dirExists files tags).documents =
         if dirExists then specLoadDocuments parseYaml tags files else []) ∧
    (load_documents tfParseYaml true [tfFile1, tfFile2, tfFile3] ["seo"]).documents =
      [mkDoc tfFile1 tfContent1, mkDoc tfFile3 tfContent3] := by
  constructor
  · intro parseYaml tags dirExists files
    cases dirExists with
    | false => rfl
    | true => simpa [load_documents] using scanFiles_documents parseYaml tags files
  · decide

/-- C6: a read failure on one file is recovered locally — the file is
skipped, its path is recorded as an error, and the other files load
exactly as they would without it; without a tag filter the scan returns
all readable files. -/
theorem load_documents_per_file_recovery :
    (∀ (parseYaml : List Char → Option FrontMatter) (tags : List String)
       (pre post : List SrcFile) (p : String) (m : String),
       (load_documents parseYaml true
          (pre ++ { path := p, read := ReadResult.err m } :: post) tags).documents =
         (load_documents parseYaml true (pre ++ post) tags).documents ∧
       p ∈ (load_documents parseYaml true
          (pre ++ { path := p, read := ReadResult.err m } :: post) tags).errors) ∧
    (∀ (parseYaml : List Char → Option FrontMatter) (files : List SrcFile),
       (load_documents parseYaml true files []).documents =
         files.filterMap (fun f => (readContent f).map (mkDoc f))) := by
  constructor
  · intro parseYaml tags pre post p m
    constructor
    · show (scanFiles parseYaml tags _).1 = (scanFiles parseYaml tags _).1
      rw [scanFiles_documents, scanFiles_documents]
      unfold specLoadDocuments
      simp [List.filterMap_append, List.filterMap_cons, specIncluded]
    · show p ∈ (scanFiles parseYaml tags _).2
      rw [scanFiles_errors]
      simp [isReadError]
  · intro parseYaml files
    show (scanFiles parseYaml [] files).1 = _
    rw [scanFiles_documents]
    unfold specLoadDocuments
    apply List.filterMap_congr
    intro f _
    cases hr : f.read <;> simp [specIncluded, readContent, hr]

/-! ## Theorems: `create_or_load_index` calling convention and save path -/

/-- C1: `search.create_or_load_index` has no `forceRebuild` parameter —
it accepts two or three positional arguments — so the `crosslinker.main`
call site, which passes four
(`documents, embeddings, args.index, args.rebuild_index`), raises
`TypeError` instead of loading or force-rebuilding the index, while the
three-argument call sites in `search.main` and `articlegenerator.main`
bind. -/
theorem create_or_load_index_callsite_arity :
    pyCallAccepted create_or_load_index_params.length
      create_or_load_index_num_defaults crosslinker_call_num_args = false ∧
    pyCallAccepted create_or_load_index_params.length
      create_or_load_index_num_defaults search_call_num_args = true := by
  decide

/-- C3 counterexample: on the rebuild path (index directory absent),
`create_or_load_index` saves by writing the live index location
directly (`vector_db.save_local(index_name)` at `"history_index"`), and
its trace contains no temporary write and no rename-into-place — the
claimed write-to-temporary-then-rename discipline is absent. -/
theorem create_or_load_index_save_not_atomic :
    mutatesLiveInPlace "history_index"
      (create_or_load_index_trace false true 2 5 "history_index") = true ∧
    usesTempWrite (create_or_load_index_trace false true 2 5 "history_index") = false ∧
    usesRenameIntoPlace
      (create_or_load_index_trace false true 2 5 "history_index") = false := by
  decide

/-- C3 amended: on every path, `create_or_load_index` performs no
temporary write and no rename-into-place; it writes the live index
location directly exactly when it rebuilds (index absent, or present
but failing to load). -/
theorem create_or_load_index_save_in_place :
    ∀ (dirExists loadOk : Bool) (nDocs nChunks : Nat) (name : String),
      usesTempWrite
        (create_or_load_index_trace dirExists loadOk nDocs nChunks name) = false ∧
      usesRenameIntoPlace
        (create_or_load_index_trace dirExists loadOk nDocs nChunks name) = false ∧
      mutatesLiveInPlace name
        (create_or_load_index_trace dirExists loadOk nDocs nChunks name) =
        (!dirExists || !loadOk) := by
  intro dirExists loadOk nDocs nChunks name
  cases dirExists <;> cases loadOk <;>
    simp [create_or_load_index_trace, usesTempWrite, usesRenameIntoPlace,
      mutatesLiveInPlace]

/-! ## Theorems: concurrent rebuilds -/

/-- Counting over an interleaving adds the two sides' counts. -/
theorem countP_interleaving (p : RebuildAction → Bool) :
    ∀ {xs ys zs : List RebuildAction}, Interleaving xs ys zs →
      zs.countP p = xs.countP p + ys.countP p := by
  intro xs ys zs h
  induction h with
  | nil => rfl
  | left _ ih => simp only [List.countP_cons, ih]; omega
  | right _ ih => simp only [List.countP_cons, ih]; omega

/-- C4 amended: two concurrent `create_or_load_index` rebuild calls for
the same index name perform exactly two rebuild executions in total
under every schedule — neither call is dropped and none is duplicated —
but nothing serialises them (see the companion counterexample for a
schedule with both rebuilds in flight at once). -/
theorem concurrent_rebuilds_exactly_two :
    ∀ tr : List RebuildAction,
      Interleaving (rebuildCallTrace 1) (rebuildCallTrace 2) tr →
      rebuildExecutions tr = 2 := by
  intro tr h
  have hc := countP_interleaving (fun a =>
    match a with
    | RebuildAction.beginRebuild _ => true
    | RebuildAction.endRebuild _ => false) h
  simpa [rebuildExecutions, rebuildCallTrace, List.countP_cons] using hc

theorem concurrent_rebuilds_exactly_two_witness :
    rebuildExecutions
      [RebuildAction.beginRebuild 1, RebuildAction.endRebuild 1,
       RebuildAction.beginRebuild 2, RebuildAction.endRebuild 2] = 2 :=
  concurrent_rebuilds_exactly_two _
    (Interleaving.left (Interleaving.left
      (Interleaving.right (Interleaving.right Interleaving.nil))))

/-- C4 counterexample: `create_or_load_index` takes no lock, so the
schedule that starts the second rebuild before the first finishes is a
legal interleaving of the two callers' traces, and it has two rebuilds
in flight simultaneously — "at most one rebuild in flight per index
name" fails. -/
theorem concurrent_rebuilds_overlap :
    Interleaving (rebuildCallTrace 1) (rebuildCallTrace 2)
      [RebuildAction.beginRebuild 1, RebuildAction.beginRebuild 2,
       RebuildAction.endRebuild 1, RebuildAction.endRebuild 2] ∧
    maxInFlight
      [RebuildAction.beginRebuild 1, RebuildAction.beginRebuild 2,
       RebuildAction.endRebuild 1, RebuildAction.endRebuild 2] = 2 :=
  ⟨Interleaving.left (Interleaving.right
      (Interleaving.left (Interleaving.right Interleaving.nil))),
   by decide⟩

/-! ## Theorems: chunker -/

/-- Dropping the overlap from every chunk and concatenating yields the
content minus its first `overlap` units. -/
theorem splitChunks_drop_flatten (size overlap : Nat) (ho : overlap < size) :
    ∀ (n : Nat) (c : List Char), c.length ≤ n →
      ((splitChunks size overlap c).map (List.drop overlap)).flatten =
        List.drop overlap c := by
  intro n
  induction n with
  | zero =>
    intro c hc
    have hnil : c = [] := by cases c with
      | nil => rfl
      | cons x xs => simp at hc
    subst hnil
    rw [splitChunks]
    simp
  | succ n ih =>
    intro c hc
    by_cases hemp : c.isEmpty
    · have hnil : c = [] := by cases c with
        | nil => rfl
        | cons x xs => simp [List.isEmpty] at hemp
      subst hnil
      rw [splitChunks]
      simp
    · rw [splitChunks, dif_neg hemp, dif_pos ho]
      have hlen : 0 < c.length := by
        cases c with
        | nil => simp [List.isEmpty] at hemp
        | cons x xs => simp
      have hrec : (c.drop (size - overlap)).length ≤ n := by
        simp only [List.length_drop]
        omega
      simp only [List.map_cons, List.flatten_cons, ih _ hrec]
      have h2 : List.drop overlap (List.drop (size - overlap) c) =
          List.drop size c := by
        rw [List.drop_drop]
        have : size - overlap + overlap = size := by omega
        rw [this]
      have h1 : List.drop overlap (List.take size c) =
          List.take (size - overlap) (List.drop overlap c) := by
        rw [List.take_drop]
        have : overlap + (size - overlap) = size := by omega
        rw [this]
      have h3 : List.drop (size - overlap) (List.drop overlap c) =
          List.drop size c := by
        rw [List.drop_drop]
        have : overlap + (size - overlap) = size := by omega
        rw [this]
      rw [h2, h1, ← h3, List.take_append_drop]

/-- C9: the chunker is deterministic — identical
`(content, chunkSize, overlap)` yields an identical chunk sequence —
and for non-empty content with `overlap < chunkSize`, concatenating the
chunk texts with the overlaps removed reconstructs the original content
exactly. -/
theorem splitChunks_deterministic_roundtrip :
    ∀ (c : List Char) (size overlap : Nat), c ≠ [] → overlap < size →
      (∀ (c' : List Char) (size' overlap' : Nat),
        c = c' → size = size' → overlap = overlap' →
        splitChunks size overlap c = splitChunks size' overlap' c') ∧
      reconstructChunks overlap (splitChunks size overlap c) = c := by
  intro c size overlap hc ho
  constructor
  · intro c' size' overlap' h1 h2 h3
    subst h1; subst h2; subst h3
    rfl
  · have hemp : ¬ c.isEmpty = true := by
      cases c with
      | nil => exact absurd rfl hc
      | cons x xs => simp [List.isEmpty]
    rw [splitChunks, dif_neg hemp, dif_pos ho]
    show List.take size c ++
      ((splitChunks size overlap (c.drop (size - overlap))).map
        (List.drop overlap)).flatten = c
    rw [splitChunks_drop_flatten size overlap ho
      (c.drop (size - overlap)).length _ le_rfl]
    rw [List.drop_drop]
    have : size - overlap + overlap = size := by omega
    rw [this, List.take_append_drop]

theorem splitChunks_deterministic_roundtrip_witness :
    ("abcde".data ≠ [] ∧ 1 < 3) ∧
    reconstructChunks 1 (splitChunks 3 1 "abcde".data) = "abcde".data :=
  ⟨⟨by decide, by decide⟩,
   (splitChunks_deterministic_roundtrip "abcde".data 3 1 (by decide) (by decide)).2⟩

/-! ## Theorems: cross-linker -/

/-- The result loop never records the querying article's own
filename. -/
theorem collectRelated_ne_self (selfName : String) (maxLinks : Nat) :
    ∀ (results : List DocMeta) (acc : List (String × String)),
      (∀ p ∈ acc, p.1 ≠ selfName) →
      ∀ p ∈ collectRelated selfName maxLinks results acc, p.1 ≠ selfName := by
  intro results
  induction results with
  | nil =>
    intro acc hacc p hp
    rw [collectRelated] at hp
    exact hacc p hp
  | cons doc rest ih =>
    intro acc hacc p hp
    rw [collectRelated] at hp
    by_cases hd : doc.filename ≠ selfName
    · rw [if_pos hd] at hp
      have hacc' : ∀ q ∈ acc ++ [(doc.filename, doc.title)], q.1 ≠ selfName := by
        intro q hq
        rcases List.mem_append.1 hq with hq | hq
        · exact hacc q hq
        · rcases List.mem_singleton.1 hq with rfl
          exact hd
      by_cases hb : maxLinks ≤ (acc ++ [(doc.filename, doc.title)]).length
      · rw [if_pos hb] at hp
        exact hacc' p hp
      · rw [if_neg hb] at hp
        exact ih _ hacc' p hp
    · rw [if_neg hd] at hp
      by_cases hb : maxLinks ≤ acc.length
      · rw [if_pos hb] at hp
        exact hacc p hp
      · rw [if_neg hb] at hp
        exact ih _ hacc p hp

/-- The result loop keeps at most `maxLinks` links when it starts below
the bound. -/
theorem collectRelated_length_le (selfName : String) (maxLinks : Nat) :
    ∀ (results : List DocMeta) (acc : List (String × String)),
      acc.length < maxLinks →
      (collectRelated selfName maxLinks results acc).length ≤ maxLinks := by
  intro results
  induction results with
  | nil =>
    intro acc hacc
    rw [collectRelated]
    omega
  | cons doc rest ih =>
    intro acc hacc
    rw [collectRelated]
    by_cases hd : doc.filename ≠ selfName
    · rw [if_pos hd]
      have hlen : (acc ++ [(doc.filename, doc.title)]).length = acc.length + 1 := by
        simp
      by_cases hb : maxLinks ≤ (acc ++ [(doc.filename, doc.title)]).length
      · rw [if_pos hb]
        omega
      · rw [if_neg hb]
        exact ih _ (by omega)
    · rw [if_neg hd]
      by_cases hb : maxLinks ≤ acc.length
      · rw [if_pos hb]
        omega
      · rw [if_neg hb]
        exact ih _ (by omega)

/-- Invariant propagation along the `related_links` dictionary:
whatever holds of every key/value pair inserted by `processArticle`
holds of every lookup of the dictionary `find_related_articles`
builds. -/
theorem find_related_dict_inv (vdb : List Char → Nat → List DocMeta)
    (maxLinks : Nat) (P : String → List (String × String) → Prop)
    (hstep : ∀ (a : Article) (rel : List (String × String)),
      processArticle vdb maxLinks a = some rel → P (Article.filename a) rel) :
    ∀ (arts : List Article) (d0 : String → Option (List (String × String))),
      (∀ k rel, d0 k = some rel → P k rel) →
      ∀ k rel,
        (arts.foldl (fun d a =>
          match processArticle vdb maxLinks a with
          | some rel => dictUpdate d (Article.filename a) rel
          | none => d) d0) k = some rel → P k rel := by
  intro arts
  induction arts with
  | nil =>
    intro d0 h0 k rel h
    exact h0 k rel h
  | cons a as ih =>
    intro d0 h0 k rel
    simp only [List.foldl_cons]
    cases hp : processArticle vdb maxLinks a with
    | none =>
      exact ih d0 h0 k rel
    | some r =>
      apply ih
      intro k' rel' hk'
      have hk2 : (if k' = Article.filename a then some r else d0 k') = some rel' := hk'
      by_cases hkk : k' = Article.filename a
      · rw [if_pos hkk] at hk2
        cases hk2
        rw [hkk]
        exact hstep a r hp
      · rw [if_neg hkk] at hk2
        exact h0 k' rel' hk2

/-- A successful `processArticle` outcome is the result loop run from
an empty list. -/
theorem processArticle_some (vdb : List Char → Nat → List DocMeta)
    (maxLinks : Nat) (a : Article) (rel : List (String × String))
    (h : processArticle vdb maxLinks a = some rel) :
    rel = collectRelated (Article.filename a) maxLinks
      (vdb (Article.main_content a) (maxLinks + 1)) [] ∧
    a.is_published = true ∧ a.outgoing_links = [] := by
  unfold processArticle at h
  by_cases hpub : a.is_published = false
  · rw [if_pos hpub] at h
    exact absurd h (by simp)
  · rw [if_neg hpub] at h
    by_cases hout : a.outgoing_links.isEmpty = false
    · rw [if_pos hout] at h
      exact absurd h (by simp)
    · rw [if_neg hout] at h
      cases h
      refine ⟨rfl, by revert hpub; cases a.is_published <;> simp, ?_⟩
      revert hout
      cases houtl : a.outgoing_links <;> simp [List.isEmpty]

/-- C7 amended: the cross-link pass never links a document to itself
(its own filename is dropped from its query results), and, provided
`maxLinksPerDocument ≥ 1`, no document receives more than
`maxLinksPerDocument` links in one run.  (With
`maxLinksPerDocument = 0` the code still records one link, because the
stop check runs only after an append — see the companion
counterexample.) -/
theorem find_related_no_self_link_and_bound :
    ∀ (vdb : List Char → Nat → List DocMeta) (maxLinks : Nat)
      (arts : List Article) (k : String) (rel : List (String × String)),
      (find_related_articles vdb maxLinks arts).1 k = some rel →
      (∀ p ∈ rel, p.1 ≠ k) ∧ (1 ≤ maxLinks → rel.length ≤ maxLinks) := by
  intro vdb maxLinks arts k rel h
  have h' : (arts.foldl (fun d a =>
      match processArticle vdb maxLinks a with
      | some rel => dictUpdate d (Article.filename a) rel
      | none => d) (fun _ => none)) k = some rel := h
  constructor
  · refine find_related_dict_inv vdb maxLinks
      (fun k rel => ∀ p ∈ rel, p.1 ≠ k) ?_ arts _ (by intro k' rel' h''; cases h'')
      k rel h'
    intro a r hp
    rcases processArticle_some vdb maxLinks a r hp with ⟨hr, -, -⟩
    rw [hr]
    exact collectRelated_ne_self _ _ _ [] (by intro p hp'; cases hp')
  · intro hm
    refine find_related_dict_inv vdb maxLinks
      (fun _ rel => rel.length ≤ maxLinks) ?_ arts _
      (by intro k' rel' h''; cases h'') k rel h'
    intro a r hp
    rcases processArticle_some vdb maxLinks a r hp with ⟨hr, -, -⟩
    rw [hr]
    exact collectRelated_length_le _ _ _ [] (by simpa using hm)

theorem find_related_no_self_link_and_bound_witness :
    ([("b.md", "B")] : List (String × String)).length ≤ 1 :=
  (find_related_no_self_link_and_bound (fun _ _ => [{ filename := "b.md", title := "B" }]) 1
    [{ file_path := "kb/a.md", content := "body".data,
       is_published := true, outgoing_links := [] }]
    "a.md" [("b.md", "B")] (by decide)).2 (by decide)

/-- C7 counterexample: with `maxLinksPerDocument = 0` the result loop
still records one link before its stop check runs, so "no document
receives more than `maxLinksPerDocument` new outbound links" fails at
zero. -/
theorem find_related_zero_max_links_violated :
    (find_related_articles (fun _ _ => [{ filename := "b.md", title := "B" }]) 0
      [{ file_path := "kb/a.md", content := "body".data,
         is_published := true, outgoing_links := [] }]).1 "a.md" =
      some [("b.md", "B")] ∧
    ¬ ([("b.md", "B")] : List (String × String)).length ≤ 0 := by
  exact ⟨by decide, by decide⟩

/-- The dictionary built by `find_related_articles` has no entry under
a key that no processed article's filename matches. -/
theorem find_related_dict_none (vdb : List Char → Nat → List DocMeta)
    (maxLinks : Nat) :
    ∀ (arts : List Article) (d0 : String → Option (List (String × String)))
      (k : String),
      (∀ b ∈ arts, processArticle vdb maxLinks b ≠ none →
        Article.filename b ≠ k) →
      d0 k = none →
      (arts.foldl (fun d a =>
        match processArticle vdb maxLinks a with
        | some rel => dictUpdate d (Article.filename a) rel
        | none => d) d0) k = none := by
  intro arts
  induction arts with
  | nil =>
    intro d0 k _ h0
    exact h0
  | cons a as ih =>
    intro d0 k h h0
    simp only [List.foldl_cons]
    cases hp : processArticle vdb maxLinks a with
    | none =>
      exact ih d0 k (fun b hb => h b (List.mem_cons_of_mem a hb)) h0
    | some r =>
      refine ih _ k (fun b hb => h b (List.mem_cons_of_mem a hb)) ?_
      have hka : Article.filename a ≠ k :=
        h a (List.mem_cons_self a as) (by simp [hp])
      show (if k = Article.filename a then some r else d0 k) = none
      rw [if_neg (fun hk => hka hk.symm)]
      exact h0

/-- A skipped article appears unchanged among the articles
`find_related_articles` returns. -/
theorem find_related_skipped_mem (vdb : List Char → Nat → List DocMeta)
    (maxLinks : Nat) (arts : List Article) (a : Article)
    (ha : a ∈ arts) (hskip : processArticle vdb maxLinks a = none) :
    a ∈ (find_related_articles vdb maxLinks arts).2 := by
  refine List.mem_map.2 ⟨a, ha, ?_⟩
  rw [hskip]

/-- C8 amended: provided the published articles have pairwise distinct
filenames, every published article that already has detected outbound
links is left untouched by the pass — no links are recorded under its
filename, it is returned unchanged by `find_related_articles`, and no
file write of the pass targets its path.  (With duplicate basenames
across subdirectories the guarantee fails — see the companion
counterexample.) -/
theorem crosslink_untouched_with_distinct_filenames :
    ∀ (reSub : List Char → List Char → List Char)
      (vdb : List Char → Nat → List DocMeta) (maxLinks : Nat)
      (arts : List Article) (a : Article),
      ((arts.filter (fun x => x.is_published)).map Article.filename).Nodup →
      a ∈ arts → a.is_published = true → a.outgoing_links ≠ [] →
      (find_related_articles vdb maxLinks arts).1 (Article.filename a) = none ∧
      a ∈ (find_related_articles vdb maxLinks arts).2 ∧
      ∀ w ∈ (update_articles_with_links reSub
          (find_related_articles vdb maxLinks arts).2
          (find_related_articles vdb maxLinks arts).1).1,
        w.1 ≠ a.file_path := by
  intro reSub vdb maxLinks arts a hnodup ha hpub hout
  have hise : a.outgoing_links.isEmpty = false := by
    cases houtl : a.outgoing_links with
    | nil => exact absurd houtl hout
    | cons x xs => simp
  have hskip : processArticle vdb maxLinks a = none := by
    unfold processArticle
    rw [if_neg (by simp [hpub]), if_pos hise]
  have hinj := List.inj_on_of_nodup_map hnodup
  have hafilter : a ∈ arts.filter (fun x => x.is_published) :=
    List.mem_filter.2 ⟨ha, hpub⟩
  have hkey : ∀ b ∈ arts, processArticle vdb maxLinks b ≠ none →
      Article.filename b ≠ Article.filename a := by
    intro b hb hbn heq
    cases hproc : processArticle vdb maxLinks b with
    | none => exact hbn hproc
    | some r =>
      rcases processArticle_some vdb maxLinks b r hproc with ⟨-, hbpub, hbout⟩
      have hbfilter : b ∈ arts.filter (fun x => x.is_published) :=
        List.mem_filter.2 ⟨hb, hbpub⟩
      have hba : b = a := hinj hbfilter hafilter heq
      rw [hba] at hbout
      exact hout hbout
  have hdict : (find_related_articles vdb maxLinks arts).1
      (Article.filename a) = none :=
    find_related_dict_none vdb maxLinks arts (fun _ => none)
      (Article.filename a) hkey rfl
  refine ⟨hdict, find_related_skipped_mem vdb maxLinks arts a ha hskip, ?_⟩
  intro w hw hweq
  rcases List.mem_filterMap.1 hw with ⟨b, _, hbf⟩
  by_cases hpubb : b.is_published = false
  · rw [if_pos hpubb] at hbf
    cases hbf
  · rw [if_neg hpubb] at hbf
    rcases hl : ((find_related_articles vdb maxLinks arts).1
        (Article.filename b)).getD [] with _ | ⟨x, xs⟩
    · rw [hl] at hbf
      cases hbf
    · rw [hl] at hbf
      have hbf2 : some (b.file_path,
          update_content_with_links reSub b.content (x :: xs)) = some w := hbf
      cases hbf2
      have hpath : b.file_path = a.file_path := hweq
      have hfn : Article.filename b = Article.filename a := by
        unfold Article.filename
        rw [hpath]
      rw [hfn, hdict] at hl
      exact absurd hl (by simp)

theorem crosslink_untouched_witness :
    (find_related_articles cxVdb 3 [cxBdet, cxBar]).1
      (Article.filename cxBdet) = none :=
  (crosslink_untouched_with_distinct_filenames cxReSub cxVdb 3
    [cxBdet, cxBar] cxBdet (by decide) (by decide) (by decide) (by decide)).1

/-- C8 counterexample: two published articles in different
subdirectories share the basename `foo.md`; the second already carries
a detected outbound link, the first has none.  After the pass, the
write list targets both paths: the already-linked article
`dir2/foo.md` is rewritten (its new content differs), because
`related_links` is keyed by basename only. -/
theorem crosslink_frame_violated :
    cxArts1 = [cxA, cxBdet, cxBar] ∧
    cxBdet.outgoing_links ≠ [] ∧
    ("dir2/foo.md", cxB.content ++ relatedSection [("bar.md", "Bar")]) ∈ cxWrites ∧
    cxB.content ++ relatedSection [("bar.md", "Bar")] ≠ cxB.content := by
  exact ⟨by decide, by decide, by decide, by decide⟩

end Seobrain
